import Mathlib

/-!
Verification development for the `sync` repository: a one-way push file
synchroniser (client/server over TCP) with backup-on-overwrite and
time-windowed restore.

The Python sources are shallowly embedded below, module by module:

* `database.py` — the two SQLite relations (`files`, `backup_files`) are
  lists of rows; SQLite `INSERT OR REPLACE` is delete-then-append.
* `client.py`  — `compare_files` (the diff engine) and `download_server_db`.
* `server.py`  — `handle_file_sync`: the per-file backup/write/verify step,
  with an explicit event trace for ordering properties.
* `restorer.py` — window query, latest-per-path reduction, restore loop.

Machine reals (`time.time()`, `st_mtime`) are modelled as `ℚ`; byte strings
as `List ℕ`; the MD5 digest `calculate_file_hash` is an abstract parameter
`hashFn : List ℕ → String` (its internals are irrelevant to every claim).
Filesystem and socket effects are passed in explicitly: a directory walk is
the list of `stat` results it yields, a socket read is the list of bytes the
peer delivered before closing.
-/

namespace Sync

/-! ### config.py -/

/-- `DEFAULT_SIZE_THRESHOLD = 10` (bytes), config.py line 18. -/
def DEFAULT_SIZE_THRESHOLD : ℤ := 10

/-- `DEFAULT_TIME_THRESHOLD = 60` (seconds), config.py line 17. -/
def DEFAULT_TIME_THRESHOLD : ℚ := 60

/-! ### database.py — the two relations -/

/-- A row of the `files` relation (`path` is `UNIQUE`), database.py 44-54. -/
structure FileRow where
  path : String
  size : ℤ
  modified_time : ℚ
  hash : Option String
  last_sync_time : ℚ
deriving DecidableEq, Repr

/-- A row of the `backup_files` relation, database.py 57-67. -/
structure BackupRow where
  original_path : String
  backup_path : String
  size : ℤ
  modified_time : ℚ
  backup_time : ℚ
  hash : Option String
deriving DecidableEq, Repr

/-- `SELECT ... FROM files WHERE path = ?` on the UNIQUE key. -/
def rowLookup (files : List FileRow) (p : String) : Option FileRow :=
  (files.find? (fun r => r.path == p))

/-- SQLite `INSERT OR REPLACE INTO files`: the conflicting row (same `path`)
is deleted and the fresh row inserted.  Columns omitted from the INSERT get
their defaults (NULL), which is why the caller builds the whole `FileRow`. -/
def insertOrReplace (files : List FileRow) (r : FileRow) : List FileRow :=
  files.filter (fun r0 => r0.path != r.path) ++ [r]

/-! ### database.py — `scan_directory` (lines 83-124) -/

/-- One file yielded by the `os.walk` of `scan_directory`: its path relative
to the root together with the `stat` data `(st_size, st_mtime)`;
`Except.error ()` models an `OSError` raised mid-walk (by `stat` or the walk
itself). -/
abbrev ScanItem := Except Unit (String × ℤ × ℚ)

/-- The per-file upsert of `scan_directory`, database.py 111-114:
`INSERT OR REPLACE INTO files (path, size, modified_time, last_sync_time)`.
The `hash` column is not in the column list, so the replacement row carries
`hash = NULL`. -/
def scanUpsert (files : List FileRow) (p : String) (sz : ℤ) (mt : ℚ) (t : ℚ) :
    List FileRow :=
  insertOrReplace files
    { path := p, size := sz, modified_time := mt, hash := none, last_sync_time := t }

/-- The walk loop of `scan_directory`.  `orig` is the committed database
content: no `conn.commit()` runs until the walk ends, so an exception takes
the `conn.rollback()` branch (database.py 121-124) and the relation reverts
to `orig` with return value `0`. -/
def scanGo (orig : List FileRow) (t : ℚ) (acc : List FileRow) (count : ℕ) :
    List ScanItem → List FileRow × ℕ
  | [] => (acc, count)
  | .error _ :: _ => (orig, 0)
  | .ok (p, sz, mt) :: rest => scanGo orig t (scanUpsert acc p sz mt t) (count + 1) rest

/-- `FileDatabase.scan_directory`, database.py 83-124.  `dir = none` models a
missing or non-directory root (early `return 0`, lines 92-95); otherwise
`dir = some items` is the sequence of walk results; `t` is the
`current_time` taken at scan start. -/
def scan_directory (files : List FileRow) (dir : Option (List ScanItem)) (t : ℚ) :
    List FileRow × ℕ :=
  match dir with
  | none => (files, 0)
  | some items => scanGo files t files 0 items

/-- `FileDatabase.backup_file`, database.py 183-208: a plain append to the
`backup_files` relation (INSERT, then commit). -/
def backup_file (backups : List BackupRow) (r : BackupRow) : List BackupRow :=
  backups ++ [r]

/-- The committed result of a completed walk: each yielded file applied to the
relation in walk order. -/
def scanCommit (t : ℚ) (acc : List FileRow) : List ScanItem → List FileRow
  | [] => acc
  | .error _ :: rest => scanCommit t acc rest
  | .ok (p, sz, mt) :: rest => scanCommit t (scanUpsert acc p sz mt t) rest

/-- A row of the client's own registry as read by `compare_files`
(client.py 342-345); only `path`, `size` and `modified_time` feed the
threshold test. -/
structure ClientRow where
  path : String
  size : ℤ
  modified_time : ℚ
deriving DecidableEq, Repr

/-- A row of the downloaded server registry (client.py 332-340), keyed by
path. -/
structure ServerRow where
  size : ℤ
  modified_time : ℚ
  hash : Option String
deriving DecidableEq, Repr

/-- What `compare_files` sees on disk for a candidate: the bytes it hashes
and the fresh `stat` data (client.py 367-371). -/
structure LocalFile where
  content : List ℕ
  size : ℤ
  modified_time : ℚ
deriving DecidableEq, Repr

/-- An entry of `files_to_sync` (client.py 377-382). -/
structure SyncFileInfo where
  path : String
  size : ℤ
  modified_time : ℚ
  hash : String
deriving DecidableEq, Repr

/-- One iteration of the `for path, client_file in client_files.items()` loop
of `SyncClient.compare_files` (client.py 353-382).  `hashFn` stands for
`calculate_file_hash` (MD5), `should_exclude` for
`SyncClient.should_exclude_file`, `serverFiles` for the path-keyed dict built
from the downloaded registry, `fs` for the on-disk tree under `parent_dir`.
The pair is (`files_to_sync` so far, paths hashed so far — client.py 369). -/
def diffStep (hashFn : List ℕ → String) (should_exclude : String → Bool)
    (serverFiles : String → Option ServerRow) (fs : String → Option LocalFile)
    (c : ClientRow) (prev : List SyncFileInfo × List String) :
    List SyncFileInfo × List String :=
  if should_exclude c.path then prev
  else
    let sOpt := serverFiles c.path
    let isCand : Bool :=
      match sOpt with
      | none => true
      | some s =>
        decide (|c.size - s.size| > DEFAULT_SIZE_THRESHOLD) ||
        decide (|c.modified_time - s.modified_time| > DEFAULT_TIME_THRESHOLD)
    if isCand then
      match fs c.path with
      | none => prev
      | some f =>
        let h := hashFn f.content
        let dropSame : Bool :=
          match sOpt with
          | some s => s.hash == some h
          | none => false
        if dropSame then (prev.1, c.path :: prev.2)
        else ({ path := c.path, size := f.size, modified_time := f.modified_time,
                hash := h } :: prev.1,
              c.path :: prev.2)
    else prev

/-- `SyncClient.compare_files`, client.py 312-386: the loop over the client
registry, yielding (`files_to_sync`, hashed paths).  A right fold keeps the
loop's output order: the entry for an earlier row precedes later ones. -/
def compare_files (hashFn : List ℕ → String) (should_exclude : String → Bool)
    (serverFiles : String → Option ServerRow) (fs : String → Option LocalFile)
    (l : List ClientRow) : List SyncFileInfo × List String :=
  l.foldr (diffStep hashFn should_exclude serverFiles fs) ([], [])

/-- `SyncClient.download_server_db`, receive phase (client.py 236-275).
`fileSize` is the announced size; `stream` is the byte sequence the socket
delivers before the peer closes or the 30 s timeout fires (a short `stream`
models both).  The destination is opened with mode `'wb'` (truncating), so
after the loop the file holds exactly the received prefix; the function
returns the path — here `true` — only when the announced size arrived in
full, and `None` — here `false` — otherwise.  Note client.py 270-271:
on a short transfer the partial file is deliberately kept on disk. -/
def download_server_db (fileSize : ℕ) (stream : List ℕ) : Bool × List ℕ :=
  let received := stream.take fileSize
  (decide (fileSize ≤ received.length), received)

/-- The retry loop of `SyncClient.start` (client.py 88-94): a failed
registry download sleeps and re-enters the session loop, which calls
`download_server_db` afresh; nothing of a failed attempt is consumed.
`attempts` lists the stream each successive attempt would receive (the code
allows at most `max_retries = 3`).  Returns the downloaded registry bytes of
the first successful attempt. -/
def downloadWithRetry (fileSize : ℕ) : List (List ℕ) → Option (List ℕ)
  | [] => none
  | s :: rest =>
    let r := download_server_db fileSize s
    if r.1 then some r.2 else downloadWithRetry fileSize rest

/-- A regular file of the server's destination tree as
`handle_file_sync` sees it: its bytes and its `st_mtime`.  (`st_size` is the
byte count.) -/
structure FsFile where
  content : List ℕ
  mtime : ℚ
deriving DecidableEq, Repr

/-- The state a `file_sync` exchange acts on: the destination tree under
`parent_dir`, the blobs of the private `backups/` area, the two relations of
the per-thread database, and the `received_files` counter. -/
structure ServerState where
  fs : List (String × FsFile)
  backupDir : List (String × List ℕ)
  files : List FileRow
  backups : List BackupRow
  receivedFiles : ℕ
deriving DecidableEq, Repr

/-- Look a path up in the destination tree (`full_dest_path.exists()` and the
`stat`/`open` that follow). -/
def fsLookup (fs : List (String × FsFile)) (p : String) : Option FsFile :=
  (fs.find? (fun e => e.1 == p)).map Prod.snd

/-- Write a file (create or overwrite) at a path of the destination tree. -/
def fsWrite (fs : List (String × FsFile)) (p : String) (f : FsFile) :
    List (String × FsFile) :=
  fs.filter (fun e => e.1 != p) ++ [(p, f)]

/-- Write a blob into the `backups/` area (`shutil.copy2`, server.py 302). -/
def blobWrite (d : List (String × List ℕ)) (name : String) (c : List ℕ) :
    List (String × List ℕ) :=
  d.filter (fun e => e.1 != name) ++ [(name, c)]

/-- The characters of a path's last component: restart at every `'/'`. -/
def fileNameAux (acc : List Char) : List Char → List Char
  | [] => acc
  | c :: rest =>
    if c = '/' then fileNameAux [] rest else fileNameAux (acc ++ [c]) rest

/-- `full_dest_path.name`: the last component of a relative POSIX path. -/
def fileName (p : String) : String :=
  ⟨fileNameAux [] p.data⟩

/-- server.py 298: `backup_filename = f"{full_dest_path.name}_{int(time.time())}"`.
`int()` truncates; event times are nonnegative, where truncation is `⌊·⌋`. -/
def backup_filename (p : String) (t : ℚ) : String :=
  fileName p ++ "_" ++ toString ⌊t⌋

/-- The observable actions of one iteration of the receive loop, in program
order; `writeDest` covers the `open(..., 'wb')`/`f.write` block that puts the
incoming bytes on disk (server.py 320-327). -/
inductive Event where
  | copyToBackup (originalPath backupName : String)
  | insertBackupRecord (originalPath : String)
  | sendReadyForFile
  | writeDest (path : String)
  | setMtime (path : String)
  | upsertFilesRow (path : String)
  | sendFileReceived
  | sendHashMismatch
deriving DecidableEq, Repr

/-- One iteration of the receive loop of `SyncServer.handle_file_sync`
(server.py 283-347) for the announced entry `fi`, the delivered bytes
`incoming`, at event time `t`:
backup-on-overwrite when the destination exists (296-314), then
`ready_for_file` and the write of the incoming stream (317-327), then hash
verification (329-347) — on a match `os.utime`, registry upsert with the
ANNOUNCED size/mtime/hash, `file_received` and the counter bump; on a
mismatch only `hash_mismatch`, the bytes staying written.  Returns the new
state and the iteration's event trace. -/
def processFile (hashFn : List ℕ → String) (st : ServerState)
    (fi : SyncFileInfo) (incoming : List ℕ) (t : ℚ) :
    ServerState × List Event :=
  let backed : ServerState × List Event :=
    match fsLookup st.fs fi.path with
    | some existing =>
      let bname := backup_filename fi.path t
      let brow : BackupRow :=
        { original_path := fi.path,
          backup_path := "backups/" ++ bname,
          size := (existing.content.length : ℤ),
          modified_time := existing.mtime,
          backup_time := t,
          hash := some (hashFn existing.content) }
      ({ st with
          backupDir := blobWrite st.backupDir bname existing.content,
          backups := backup_file st.backups brow },
       [Event.copyToBackup fi.path bname, Event.insertBackupRecord fi.path])
    | none => (st, [])
  let st1 := backed.1
  let st2 := { st1 with fs := fsWrite st1.fs fi.path ⟨incoming, t⟩ }
  let evs2 := backed.2 ++ [Event.sendReadyForFile, Event.writeDest fi.path]
  if hashFn incoming = fi.hash then
    ({ st2 with
        fs := fsWrite st2.fs fi.path ⟨incoming, fi.modified_time⟩,
        files := insertOrReplace st2.files
          { path := fi.path, size := fi.size, modified_time := fi.modified_time,
            hash := some fi.hash, last_sync_time := t },
        receivedFiles := st2.receivedFiles + 1 },
     evs2 ++ [Event.setMtime fi.path, Event.upsertFilesRow fi.path,
              Event.sendFileReceived])
  else
    (st2, evs2 ++ [Event.sendHashMismatch])

/-- The whole receive loop of `handle_file_sync`: each announced entry with
its delivered bytes and its event time, in list order.  The per-iteration
traces are concatenated. -/
def handleFileSync (hashFn : List ℕ → String) (st : ServerState) :
    List (SyncFileInfo × List ℕ × ℚ) → ServerState × List Event
  | [] => (st, [])
  | (fi, bytes, t) :: rest =>
    let r1 := processFile hashFn st fi bytes t
    let r2 := handleFileSync hashFn r1.1 rest
    (r2.1, r1.2 ++ r2.2)

/-- Read a blob of the `backups/` area. -/
def blobLookup (d : List (String × List ℕ)) (name : String) : Option (List ℕ) :=
  (d.find? (fun e => e.1 == name)).map Prod.snd

/-- The number of overwrite events in an exchange: files of the list whose
destination path exists when their turn comes.  `dom` is the set of paths
present on disk; a processed file's path is present from then on, whatever
the hash verdict. -/
def countOverwrites (dom : String → Bool) :
    List (SyncFileInfo × List ℕ × ℚ) → ℕ
  | [] => 0
  | (fi, _, _) :: rest =>
    (if dom fi.path then 1 else 0) +
      countOverwrites (fun q => q == fi.path || dom q) rest

/-- `FileDatabase.get_backup_files_by_time_range`, database.py 210-241:
`WHERE backup_time BETWEEN ? AND ?` (a closed interval) with
`ORDER BY backup_time DESC`. -/
def get_backup_files_by_time_range (db : List BackupRow) (s e : ℚ) :
    List BackupRow :=
  (db.filter (fun b => decide (s ≤ b.backup_time) && decide (b.backup_time ≤ e))).mergeSort
    (fun a b => decide (b.backup_time ≤ a.backup_time))

/-- One iteration of the grouping loop of
`FileRestorer.restore_files_by_time_range` (restorer.py 54-58): the
`latest_backups` dict keeps, per `original_path`, the record seen so far
with the strictly greatest `backup_time`. -/
def latestStep (acc : String → Option BackupRow) (b : BackupRow) :
    String → Option BackupRow :=
  fun p =>
    if p = b.original_path then
      match acc b.original_path with
      | none => some b
      | some cur => if b.backup_time > cur.backup_time then some b else some cur
    else acc p

/-- The `latest_backups` dict after the whole grouping loop. -/
def latest_backups (bs : List BackupRow) : String → Option BackupRow :=
  bs.foldl latestStep (fun _ => none)

/-- Which record the restore picks for a path: the window query composed
with the grouping loop (restorer.py 45 and 54-58). -/
def restore_selection (db : List BackupRow) (s e : ℚ) :
    String → Option BackupRow :=
  latest_backups (get_backup_files_by_time_range db s e)

/-- Specification-side combination of the dict entry with one record of the
same path: keep the strictly later one (ties keep the incumbent). -/
def runMaxStep (cur : Option BackupRow) (b : BackupRow) : Option BackupRow :=
  match cur with
  | none => some b
  | some c => if b.backup_time > c.backup_time then some b else some c

/-- Specification-side running maximum: what the dict entry for one path
reduces to over the records carrying that path. -/
def runMax (cur : Option BackupRow) : List BackupRow → Option BackupRow
  | [] => cur
  | b :: rest => runMax (runMaxStep cur b) rest

/-- The filesystem's verdicts for one selected record, in the order the
loop consults them: `blobExists` is `backup_path.exists()` (restorer.py 71);
`mkdirOk = false` means `full_dest_path.parent.mkdir(...)` raises
(restorer.py 76 — this call stands OUTSIDE the try block);
`copyOk = false` means an exception inside the try block (restorer.py
78-94: `shutil.copy2`, `os.utime` or the registry upsert). -/
structure RestoreItemEnv where
  blobExists : Bool
  mkdirOk : Bool
  copyOk : Bool
deriving DecidableEq, Repr

/-- The per-record loop of `FileRestorer.restore_files_by_time_range`
(restorer.py 64-98) over the selected records, with `n` the running
`restored_count`: a missing blob is logged and skipped; an `mkdir` failure
raises out of the whole method (`Except.error`, nothing caught); a failure
inside the try block is logged and skipped; otherwise the count grows.
`Except.ok` is the `return restored_count` of line 98. -/
def restoreLoop : List (BackupRow × RestoreItemEnv) → ℕ → Except String ℕ
  | [], n => .ok n
  | (b, env) :: rest, n =>
    if env.blobExists = false then restoreLoop rest n
    else if env.mkdirOk = false then .error b.original_path
    else if env.copyOk = false then restoreLoop rest n
    else restoreLoop rest (n + 1)

/-- `restore_files_by_time_range`'s loop from its start:
`restored_count = 0`. -/
def restore_files (items : List (BackupRow × RestoreItemEnv)) :
    Except String ℕ :=
  restoreLoop items 0

/-- The backup log of the spec's restore tie-break example: three backups of
path `"a"` at times 10, 20 and 30. -/
def tieBreakLog : List BackupRow :=
  [{ original_path := "a", backup_path := "b1", size := 1,
     modified_time := 5, backup_time := 10, hash := none },
   { original_path := "a", backup_path := "b2", size := 1,
     modified_time := 5, backup_time := 20, hash := none },
   { original_path := "a", backup_path := "b3", size := 1,
     modified_time := 5, backup_time := 30, hash := none }]

/-- The three-record batch of the C5 witness: a missing blob, a copy
failure, and a success — only the third is counted, none aborts. -/
def mixedBatch : List (BackupRow × RestoreItemEnv) :=
  [({ original_path := "a", backup_path := "b1", size := 1,
      modified_time := 5, backup_time := 10, hash := none },
    { blobExists := false, mkdirOk := true, copyOk := true }),
   ({ original_path := "c", backup_path := "b2", size := 1,
      modified_time := 5, backup_time := 20, hash := none },
    { blobExists := true, mkdirOk := true, copyOk := false }),
   ({ original_path := "d", backup_path := "b3", size := 1,
      modified_time := 5, backup_time := 30, hash := none },
    { blobExists := true, mkdirOk := true, copyOk := true })]

end Sync

open Sync

/-! ### Helper lemmas about the `files` relation -/

theorem rowLookup_insertOrReplace (files : List FileRow) (r : FileRow) (p : String) :
    rowLookup (insertOrReplace files r) p =
      if p = r.path then some r else rowLookup files p := by
  unfold rowLookup insertOrReplace
  rw [List.find?_append, List.find?_filter]
  by_cases h : p = r.path
  · have h1 : List.find?
        (fun a : FileRow => decide ((a.path != r.path) = true ∧ (a.path == p) = true))
        files = none := by
      refine List.find?_eq_none.mpr fun x _ => ?_
      simp [bne, beq_iff_eq, h]
    rw [h1]
    simp [List.find?, h, beq_iff_eq]
  · have h2 : (fun a : FileRow =>
        decide ((a.path != r.path) = true ∧ (a.path == p) = true)) =
        fun a : FileRow => a.path == p := by
      funext a
      by_cases ha : a.path = p
      · have hne : a.path ≠ r.path := fun hh => h (ha ▸ hh)
        simp [ha, bne, beq_iff_eq, hne, h]
      · simp [ha, bne, beq_iff_eq]
    have hr : (r.path == p) = false := beq_eq_false_iff_ne.mpr (Ne.symm h)
    have h3 : List.find? (fun r0 : FileRow => r0.path == p) [r] = none := by
      simp [List.find?, hr]
    rw [h2, h3]
    simp [h]

theorem scanGo_error (orig : List FileRow) (t : ℚ) :
    ∀ (items : List ScanItem) (acc : List FileRow) (count : ℕ),
      Except.error () ∈ items → scanGo orig t acc count items = (orig, 0) := by
  intro items
  induction items with
  | nil => intro _ _ h; simp at h
  | cons i rest ih =>
    intro acc count h
    match i with
    | .error () => rfl
    | .ok (p, sz, mt) =>
      have : Except.error () ∈ rest := by
        rcases List.mem_cons.mp h with h1 | h1
        · exact absurd h1 (by simp)
        · exact h1
      simpa [scanGo] using ih _ _ this

theorem scanGo_ok (orig : List FileRow) (t : ℚ) :
    ∀ (items : List ScanItem) (acc : List FileRow) (count : ℕ),
      (∀ i ∈ items, ∃ x, i = Except.ok x) →
      scanGo orig t acc count items = (scanCommit t acc items, count + items.length) := by
  intro items
  induction items with
  | nil => intro acc count _; simp [scanGo, scanCommit]
  | cons i rest ih =>
    intro acc count h
    obtain ⟨⟨p, sz, mt⟩, rfl⟩ := h i (List.mem_cons_self i rest)
    have hrest : ∀ j ∈ rest, ∃ x, j = Except.ok x := fun j hj => h j (List.mem_cons_of_mem _ hj)
    simp only [scanGo, scanCommit, List.length_cons, ih _ _ hrest, Prod.mk.injEq]
    exact ⟨trivial, by omega⟩

/-! ### C9 — atomicity of a directory scan -/

/-- C9.  A directory scan is atomic with respect to the `files` relation:
if any error occurs during the walk the transaction is rolled back, the
relation is exactly as before and the scan returns `0`; if the walk
completes, all upserts are committed together and the file count is
returned. -/
theorem C9_scan_atomic (files : List FileRow) (items : List ScanItem) (t : ℚ) :
    (Except.error () ∈ items → scan_directory files (some items) t = (files, 0)) ∧
    ((∀ i ∈ items, ∃ x, i = Except.ok x) →
      scan_directory files (some items) t = (scanCommit t files items, items.length)) := by
  constructor
  · intro h
    simpa [scan_directory] using scanGo_error files t items files 0 h
  · intro h
    simpa [scan_directory] using scanGo_ok files t items files 0 h

/-- C9 witness: a two-file walk that fails on its second file leaves the
one-row relation untouched and returns 0; the same walk without the failure
commits both rows and returns 2. -/
theorem C9_scan_atomic_witness :
    (scan_directory [{ path := "a", size := 1, modified_time := 0, hash := some "h",
                       last_sync_time := 0 }]
      (some [Except.ok ("b", 2, 3), Except.error ()]) 9 =
      ([{ path := "a", size := 1, modified_time := 0, hash := some "h",
          last_sync_time := 0 }], 0)) ∧
    (scan_directory [] (some [Except.ok ("b", 2, 3), Except.ok ("c", 4, 5)]) 9 =
      (scanCommit 9 [] [Except.ok ("b", 2, 3), Except.ok ("c", 4, 5)], 2)) := by
  exact ⟨(C9_scan_atomic _ _ _).1 (List.mem_cons_of_mem _ (List.mem_cons_self _ _)),
         (C9_scan_atomic _ _ _).2 (by intro i hi; fin_cases hi <;> exact ⟨_, rfl⟩)⟩

/-! ### C2 — what a rescan does to a stored hash -/

/-- C2 counterexample.  The claim says a scan leaves `content_hash` unchanged
(a stored hash survives a rescan).  It does not: the scan's
`INSERT OR REPLACE` (database.py 111-114) omits the `hash` column, so the
replacement row has `hash = NULL`.  Concretely: a relation holding path `"a"`
with hash `"h"`, rescanned over a root whose walk yields `"a"`, ends with
`hash = none` for `"a"`. -/
theorem C2_counterexample :
    (rowLookup [{ path := "a", size := 1, modified_time := 0, hash := some "h",
                  last_sync_time := 0 }] "a").map FileRow.hash = some (some "h") ∧
    (rowLookup (scan_directory
        [{ path := "a", size := 1, modified_time := 0, hash := some "h",
           last_sync_time := 0 }]
        (some [Except.ok ("a", 5, 2)]) 3).1 "a").map FileRow.hash = some none := by
  decide

/-- C2 (amended).  A scan's per-file upsert replaces the whole `files` row:
`size`, `modified_time` and `last_sync_time` are set to the fresh values and
`content_hash` is reset to NULL — a previously stored hash does not survive.
Rows of other paths are untouched. -/
theorem C2_scan_replaces_row (files : List FileRow) (p : String) (sz : ℤ) (mt t : ℚ) :
    rowLookup (scanUpsert files p sz mt t) p =
      some { path := p, size := sz, modified_time := mt, hash := none,
             last_sync_time := t } ∧
    ∀ q, q ≠ p → rowLookup (scanUpsert files p sz mt t) q = rowLookup files q := by
  constructor
  · rw [scanUpsert, rowLookup_insertOrReplace]
    simp
  · intro q hq
    rw [scanUpsert, rowLookup_insertOrReplace]
    simp [hq]

/-- C2 witness: rescanning path `"a"` over a row that carried hash `"h"`
yields the replacement row with `hash = none`, and the unrelated row `"b"` is
unchanged. -/
theorem C2_scan_replaces_row_witness :
    rowLookup (scanUpsert [{ path := "a", size := 1, modified_time := 0,
                             hash := some "h", last_sync_time := 0 }] "a" 5 2 3) "a" =
      some { path := "a", size := 5, modified_time := 2, hash := none,
             last_sync_time := 3 } ∧
    rowLookup (scanUpsert [{ path := "a", size := 1, modified_time := 0,
                             hash := some "h", last_sync_time := 0 }] "a" 5 2 3) "b" =
      rowLookup [{ path := "a", size := 1, modified_time := 0,
                   hash := some "h", last_sync_time := 0 }] "b" := by
  exact ⟨(C2_scan_replaces_row _ _ _ _ _).1,
         (C2_scan_replaces_row _ _ _ _ _).2 "b" (by decide)⟩

/-! ### client.py — `compare_files` (lines 312-386), the diff engine -/

/-! ### Characterisation of one diff iteration -/

section DiffStep

variable (hashFn : List ℕ → String) (should_exclude : String → Bool)
variable (serverFiles : String → Option ServerRow) (fs : String → Option LocalFile)
variable (c : ClientRow) (prev : List SyncFileInfo × List String)

theorem diffStep_excluded (hex : should_exclude c.path = true) :
    diffStep hashFn should_exclude serverFiles fs c prev = prev := by
  simp [diffStep, hex]

theorem diffStep_within (s : ServerRow) (hex : should_exclude c.path = false)
    (hsrv : serverFiles c.path = some s)
    (h1 : ¬ |c.size - s.size| > DEFAULT_SIZE_THRESHOLD)
    (h2 : ¬ |c.modified_time - s.modified_time| > DEFAULT_TIME_THRESHOLD) :
    diffStep hashFn should_exclude serverFiles fs c prev = prev := by
  simp [diffStep, hex, hsrv, h1, h2]

theorem diffStep_no_local (hex : should_exclude c.path = false)
    (hfs : fs c.path = none) :
    diffStep hashFn should_exclude serverFiles fs c prev = prev := by
  unfold diffStep
  rw [hex]
  simp only [Bool.false_eq_true, if_false, hfs]
  split <;> rfl

theorem diffStep_drop (s : ServerRow) (f : LocalFile)
    (hex : should_exclude c.path = false) (hsrv : serverFiles c.path = some s)
    (hfs : fs c.path = some f)
    (hth : |c.size - s.size| > DEFAULT_SIZE_THRESHOLD ∨
      |c.modified_time - s.modified_time| > DEFAULT_TIME_THRESHOLD)
    (hdrop : s.hash = some (hashFn f.content)) :
    diffStep hashFn should_exclude serverFiles fs c prev =
      (prev.1, c.path :: prev.2) := by
  have hcand : (decide (|c.size - s.size| > DEFAULT_SIZE_THRESHOLD) ||
      decide (|c.modified_time - s.modified_time| > DEFAULT_TIME_THRESHOLD)) = true := by
    rcases hth with h | h <;> simp [h]
  simp [diffStep, hex, hsrv, hfs, hcand, hdrop]

theorem diffStep_add_absent (f : LocalFile)
    (hex : should_exclude c.path = false) (hsrv : serverFiles c.path = none)
    (hfs : fs c.path = some f) :
    diffStep hashFn should_exclude serverFiles fs c prev =
      ({ path := c.path, size := f.size, modified_time := f.modified_time,
         hash := hashFn f.content } :: prev.1,
       c.path :: prev.2) := by
  simp [diffStep, hex, hsrv, hfs]

theorem diffStep_add_differs (s : ServerRow) (f : LocalFile)
    (hex : should_exclude c.path = false) (hsrv : serverFiles c.path = some s)
    (hfs : fs c.path = some f)
    (hth : |c.size - s.size| > DEFAULT_SIZE_THRESHOLD ∨
      |c.modified_time - s.modified_time| > DEFAULT_TIME_THRESHOLD)
    (hdrop : s.hash ≠ some (hashFn f.content)) :
    diffStep hashFn should_exclude serverFiles fs c prev =
      ({ path := c.path, size := f.size, modified_time := f.modified_time,
         hash := hashFn f.content } :: prev.1,
       c.path :: prev.2) := by
  have hcand : (decide (|c.size - s.size| > DEFAULT_SIZE_THRESHOLD) ||
      decide (|c.modified_time - s.modified_time| > DEFAULT_TIME_THRESHOLD)) = true := by
    rcases hth with h | h <;> simp [h]
  simp [diffStep, hex, hsrv, hfs, hcand, hdrop]

/-- The outputs of one iteration extend `prev`: anything in the result was
either contributed by this row's path or was already in `prev`. -/
theorem diffStep_extends :
    (∀ x ∈ (diffStep hashFn should_exclude serverFiles fs c prev).1,
      x.path = c.path ∨ x ∈ prev.1) ∧
    (∀ q ∈ (diffStep hashFn should_exclude serverFiles fs c prev).2,
      q = c.path ∨ q ∈ prev.2) := by
  by_cases hex : should_exclude c.path
  · rw [diffStep_excluded _ _ _ _ _ _ hex]
    exact ⟨fun x hx => Or.inr hx, fun q hq => Or.inr hq⟩
  · have hex' : should_exclude c.path = false := Bool.eq_false_iff.mpr hex
    rcases hsrv : serverFiles c.path with _ | s
    · rcases hfs : fs c.path with _ | f
      · rw [diffStep_no_local _ _ _ _ _ _ hex' hfs]
        exact ⟨fun x hx => Or.inr hx, fun q hq => Or.inr hq⟩
      · rw [diffStep_add_absent _ _ _ _ _ _ f hex' hsrv hfs]
        constructor
        · intro x hx
          rcases List.mem_cons.mp hx with h | h
          · exact Or.inl (by rw [h])
          · exact Or.inr h
        · intro q hq
          rcases List.mem_cons.mp hq with h | h
          · exact Or.inl h
          · exact Or.inr h
    · by_cases hth : |c.size - s.size| > DEFAULT_SIZE_THRESHOLD ∨
          |c.modified_time - s.modified_time| > DEFAULT_TIME_THRESHOLD
      · rcases hfs : fs c.path with _ | f
        · rw [diffStep_no_local _ _ _ _ _ _ hex' hfs]
          exact ⟨fun x hx => Or.inr hx, fun q hq => Or.inr hq⟩
        · by_cases hdrop : s.hash = some (hashFn f.content)
          · rw [diffStep_drop _ _ _ _ _ _ s f hex' hsrv hfs hth hdrop]
            refine ⟨fun x hx => Or.inr hx, fun q hq => ?_⟩
            rcases List.mem_cons.mp hq with h | h
            · exact Or.inl h
            · exact Or.inr h
          · rw [diffStep_add_differs _ _ _ _ _ _ s f hex' hsrv hfs hth hdrop]
            constructor
            · intro x hx
              rcases List.mem_cons.mp hx with h | h
              · exact Or.inl (by rw [h])
              · exact Or.inr h
            · intro q hq
              rcases List.mem_cons.mp hq with h | h
              · exact Or.inl h
              · exact Or.inr h
      · push_neg at hth
        rw [diffStep_within _ _ _ _ _ _ s hex' hsrv (by exact not_lt.mpr hth.1)
          (by exact not_lt.mpr hth.2)]
        exact ⟨fun x hx => Or.inr hx, fun q hq => Or.inr hq⟩

end DiffStep

/-! ### C3 — identical content hash ⇒ never transferred -/

/-- C3.  For a tracked, non-excluded path whose remote record carries
exactly the freshly computed local content hash, `compare_files` never puts
the path into the transfer set, for every combination of size and mtime
differences: inside both thresholds the row is no candidate, outside them
the equal hash drops the candidate (client.py 362-375). -/
theorem C3_identical_hash_never_transferred
    (hashFn : List ℕ → String) (should_exclude : String → Bool)
    (serverFiles : String → Option ServerRow) (fs : String → Option LocalFile)
    (l : List ClientRow) (p : String) (s : ServerRow) (f : LocalFile)
    (hex : should_exclude p = false)
    (hsrv : serverFiles p = some s) (hfs : fs p = some f)
    (hhash : s.hash = some (hashFn f.content)) :
    p ∉ (compare_files hashFn should_exclude serverFiles fs l).1.map
      SyncFileInfo.path := by
  induction l with
  | nil => simp [compare_files]
  | cons c rest ih =>
    intro hmem
    have hstep : compare_files hashFn should_exclude serverFiles fs (c :: rest) =
        diffStep hashFn should_exclude serverFiles fs c
          (compare_files hashFn should_exclude serverFiles fs rest) := rfl
    rw [hstep, List.mem_map] at hmem
    obtain ⟨x, hx, hxp⟩ := hmem
    by_cases hcp : c.path = p
    · subst hcp
      by_cases hth : |c.size - s.size| > DEFAULT_SIZE_THRESHOLD ∨
          |c.modified_time - s.modified_time| > DEFAULT_TIME_THRESHOLD
      · rw [diffStep_drop _ _ _ _ _ _ s f hex hsrv hfs hth hhash] at hx
        exact ih (List.mem_map.mpr ⟨x, hx, hxp⟩)
      · push_neg at hth
        rw [diffStep_within _ _ _ _ _ _ s hex hsrv (not_lt.mpr hth.1)
          (not_lt.mpr hth.2)] at hx
        exact ih (List.mem_map.mpr ⟨x, hx, hxp⟩)
    · rcases (diffStep_extends hashFn should_exclude serverFiles fs c _).1 x hx with
        h | h
      · exact hcp (h.symm.trans hxp).symm.symm
      · exact ih (List.mem_map.mpr ⟨x, h, hxp⟩)

/-- C3 witness: path `"a"`, local hash `"h"` equal to the remote record's
hash, with size skew 95 > 10 and mtime skew 1000 > 60 — the path stays out of
the transfer set. -/
theorem C3_identical_hash_never_transferred_witness :
    "a" ∉ (compare_files (fun _ => "h") (fun _ => false)
      (fun p => if p = "a" then some { size := 100, modified_time := 0,
                                       hash := some "h" } else none)
      (fun p => if p = "a" then some { content := [1], size := 5,
                                       modified_time := 1000 } else none)
      [{ path := "a", size := 5, modified_time := 1000 }]).1.map
      SyncFileInfo.path :=
  C3_identical_hash_never_transferred _ _ _ _ _ _
    { size := 100, modified_time := 0, hash := some "h" }
    { content := [1], size := 5, modified_time := 1000 }
    rfl (by decide) (by decide) rfl

/-! ### C7 — hashing is lazy -/

/-- Soundness of the hash log: a path got hashed only if some client row
carries it, it is not excluded, the local file exists and the row was a
transfer candidate (remote record absent, or size/mtime outside a
threshold). -/
theorem compare_files_hashed_sound
    (hashFn : List ℕ → String) (should_exclude : String → Bool)
    (serverFiles : String → Option ServerRow) (fs : String → Option LocalFile)
    (l : List ClientRow) (p : String)
    (hp : p ∈ (compare_files hashFn should_exclude serverFiles fs l).2) :
    ∃ c ∈ l, c.path = p ∧ should_exclude p = false ∧ fs p ≠ none ∧
      (serverFiles p = none ∨ ∃ s, serverFiles p = some s ∧
        (|c.size - s.size| > DEFAULT_SIZE_THRESHOLD ∨
         |c.modified_time - s.modified_time| > DEFAULT_TIME_THRESHOLD)) := by
  induction l with
  | nil => simp [compare_files] at hp
  | cons c rest ih =>
    have hstep : compare_files hashFn should_exclude serverFiles fs (c :: rest) =
        diffStep hashFn should_exclude serverFiles fs c
          (compare_files hashFn should_exclude serverFiles fs rest) := rfl
    rw [hstep] at hp
    by_cases hex : should_exclude c.path
    · rw [diffStep_excluded _ _ _ _ _ _ hex] at hp
      obtain ⟨c', h1, h2⟩ := ih hp
      exact ⟨c', List.mem_cons_of_mem _ h1, h2⟩
    · have hex' : should_exclude c.path = false := Bool.eq_false_iff.mpr hex
      rcases hsrv : serverFiles c.path with _ | s
      · rcases hfs : fs c.path with _ | f
        · rw [diffStep_no_local _ _ _ _ _ _ hex' hfs] at hp
          obtain ⟨c', h1, h2⟩ := ih hp
          exact ⟨c', List.mem_cons_of_mem _ h1, h2⟩
        · rw [diffStep_add_absent _ _ _ _ _ _ f hex' hsrv hfs] at hp
          rcases List.mem_cons.mp hp with h | h
          · subst h
            exact ⟨c, List.mem_cons_self _ _, rfl, hex', by simp [hfs], Or.inl hsrv⟩
          · obtain ⟨c', h1, h2⟩ := ih h
            exact ⟨c', List.mem_cons_of_mem _ h1, h2⟩
      · by_cases hth : |c.size - s.size| > DEFAULT_SIZE_THRESHOLD ∨
            |c.modified_time - s.modified_time| > DEFAULT_TIME_THRESHOLD
        · rcases hfs : fs c.path with _ | f
          · rw [diffStep_no_local _ _ _ _ _ _ hex' hfs] at hp
            obtain ⟨c', h1, h2⟩ := ih hp
            exact ⟨c', List.mem_cons_of_mem _ h1, h2⟩
          · by_cases hdrop : s.hash = some (hashFn f.content)
            · rw [diffStep_drop _ _ _ _ _ _ s f hex' hsrv hfs hth hdrop] at hp
              rcases List.mem_cons.mp hp with h | h
              · subst h
                exact ⟨c, List.mem_cons_self _ _, rfl, hex', by simp [hfs],
                  Or.inr ⟨s, hsrv, hth⟩⟩
              · obtain ⟨c', h1, h2⟩ := ih h
                exact ⟨c', List.mem_cons_of_mem _ h1, h2⟩
            · rw [diffStep_add_differs _ _ _ _ _ _ s f hex' hsrv hfs hth hdrop] at hp
              rcases List.mem_cons.mp hp with h | h
              · subst h
                exact ⟨c, List.mem_cons_self _ _, rfl, hex', by simp [hfs],
                  Or.inr ⟨s, hsrv, hth⟩⟩
              · obtain ⟨c', h1, h2⟩ := ih h
                exact ⟨c', List.mem_cons_of_mem _ h1, h2⟩
        · push_neg at hth
          rw [diffStep_within _ _ _ _ _ _ s hex' hsrv (not_lt.mpr hth.1)
            (not_lt.mpr hth.2)] at hp
          obtain ⟨c', h1, h2⟩ := ih hp
          exact ⟨c', List.mem_cons_of_mem _ h1, h2⟩

/-- C7.  Hashing is lazy: a tracked path whose remote record is present and
within both thresholds is never hashed by the diff engine, and every hash
computation belongs to a transfer candidate (client.py 361-369).  The
registry rows come from a dict keyed by path, hence the `Nodup` premise. -/
theorem C7_lazy_hashing
    (hashFn : List ℕ → String) (should_exclude : String → Bool)
    (serverFiles : String → Option ServerRow) (fs : String → Option LocalFile)
    (l : List ClientRow)
    (hnd : (l.map ClientRow.path).Nodup) :
    (∀ c ∈ l, ∀ s, serverFiles c.path = some s →
      |c.size - s.size| ≤ DEFAULT_SIZE_THRESHOLD →
      |c.modified_time - s.modified_time| ≤ DEFAULT_TIME_THRESHOLD →
      c.path ∉ (compare_files hashFn should_exclude serverFiles fs l).2) ∧
    (∀ p ∈ (compare_files hashFn should_exclude serverFiles fs l).2,
      ∃ c ∈ l, c.path = p ∧ should_exclude p = false ∧ fs p ≠ none ∧
        (serverFiles p = none ∨ ∃ s, serverFiles p = some s ∧
          (|c.size - s.size| > DEFAULT_SIZE_THRESHOLD ∨
           |c.modified_time - s.modified_time| > DEFAULT_TIME_THRESHOLD))) := by
  refine ⟨?_, fun p hp => compare_files_hashed_sound _ _ _ _ _ p hp⟩
  intro c hc s hsrv hsz hmt hmem
  obtain ⟨c', hc', hpath, _, _, hcand⟩ :=
    compare_files_hashed_sound hashFn should_exclude serverFiles fs l c.path hmem
  have hceq : c' = c :=
    List.inj_on_of_nodup_map hnd hc' hc hpath
  subst hceq
  rcases hcand with h | ⟨s', hs', hgt⟩
  · rw [h] at hsrv
    cases hsrv
  · rw [hsrv] at hs'
    cases hs'
    rcases hgt with h | h
    · exact absurd hsz (not_le.mpr h)
    · exact absurd hmt (not_le.mpr h)

/-- C7 witness: a path whose remote row differs by 5 bytes and 10 seconds
(inside both thresholds) is not hashed. -/
theorem C7_lazy_hashing_witness :
    "a" ∉ (compare_files (fun _ => "h") (fun _ => false)
      (fun p => if p = "a" then some { size := 100, modified_time := 1000,
                                       hash := some "x" } else none)
      (fun p => if p = "a" then some { content := [1], size := 105,
                                       modified_time := 1010 } else none)
      [{ path := "a", size := 105, modified_time := 1010 }]).2 :=
  (C7_lazy_hashing (fun _ => "h") (fun _ => false) _ _
      [{ path := "a", size := 105, modified_time := 1010 }] (by simp)).1
    { path := "a", size := 105, modified_time := 1010 } (by simp)
    { size := 100, modified_time := 1000, hash := some "x" } (by decide)
    (by norm_num [DEFAULT_SIZE_THRESHOLD])
    (by norm_num [DEFAULT_TIME_THRESHOLD])

/-! ### client.py — `download_server_db` (lines 186-279) and the retry loop -/

/-- C6 counterexample.  The claim says a short read leaves the partial bytes
discarded.  They are not: announcing 4 bytes and receiving only `[9, 9]`
fails the download, but the destination file keeps the two partial bytes
(client.py 270-271 even logs that it keeps them). -/
theorem C6_counterexample :
    (download_server_db 4 [9, 9]).1 = false ∧
    (download_server_db 4 [9, 9]).2 = [9, 9] ∧
    (download_server_db 4 [9, 9]).2 ≠ [] := by
  decide

/-- C6 (amended).  A registry download short of the announced size fails
(returns no path) and the partial bytes are never handed to the caller, but
they are kept on disk rather than discarded; a retry reopens the file with
`'wb'` and restarts from byte zero: after any number of failed attempts, a
sufficient stream yields exactly its own first `fileSize` bytes — nothing is
resumed from the partial data. -/
theorem C6_download_restart_no_resume (fileSize : ℕ) (s cur : List ℕ)
    (prev rest : List (List ℕ)) :
    (s.length < fileSize → download_server_db fileSize s = (false, s)) ∧
    (fileSize ≤ s.length →
      download_server_db fileSize s = (true, s.take fileSize)) ∧
    ((∀ p ∈ prev, p.length < fileSize) → fileSize ≤ cur.length →
      downloadWithRetry fileSize (prev ++ cur :: rest) =
        some (cur.take fileSize)) := by
  refine ⟨?_, ?_, ?_⟩
  · intro h
    have htake : s.take fileSize = s := List.take_of_length_le (le_of_lt h)
    simp [download_server_db, htake, Nat.not_le.mpr h]
  · intro h
    have hlen : (s.take fileSize).length = fileSize := by
      simp [List.length_take, Nat.min_eq_left h]
    simp [download_server_db, hlen]
  · intro hfail hok
    induction prev with
    | nil =>
      have hlen : (cur.take fileSize).length = fileSize := by
        simp [List.length_take, Nat.min_eq_left hok]
      simp [downloadWithRetry, download_server_db, hlen]
    | cons q qs ih =>
      have hq : q.length < fileSize := hfail q (List.mem_cons_self _ _)
      have hqs : ∀ p ∈ qs, p.length < fileSize :=
        fun p hp => hfail p (List.mem_cons_of_mem _ hp)
      have hcond : (download_server_db fileSize q).1 = false := by
        simp only [download_server_db, List.length_take, decide_eq_false_iff_not,
          Nat.not_le]
        omega
      simp only [List.cons_append, downloadWithRetry, hcond, Bool.false_eq_true,
        if_false]
      exact ih hqs

/-! ### server.py — `handle_file_sync` (lines 260-356) -/

/-! ### Helper lemmas about the server state -/

theorem fsLookup_fsWrite (fs : List (String × FsFile)) (p : String) (f : FsFile)
    (q : String) :
    fsLookup (fsWrite fs p f) q = if q = p then some f else fsLookup fs q := by
  unfold fsLookup fsWrite
  rw [List.find?_append, List.find?_filter]
  by_cases h : q = p
  · have h1 : List.find?
        (fun a : String × FsFile => decide ((a.1 != p) = true ∧ (a.1 == q) = true))
        fs = none := by
      refine List.find?_eq_none.mpr fun x _ => ?_
      simp [bne, beq_iff_eq, h]
    rw [h1]
    simp [List.find?, h, beq_iff_eq]
  · have h2 : (fun a : String × FsFile =>
        decide ((a.1 != p) = true ∧ (a.1 == q) = true)) =
        fun a : String × FsFile => a.1 == q := by
      funext a
      by_cases ha : a.1 = q
      · have hne : a.1 ≠ p := fun hh => h (ha ▸ hh)
        simp [ha, bne, beq_iff_eq, hne, h]
      · simp [ha, bne, beq_iff_eq]
    have hr : (p == q) = false := beq_eq_false_iff_ne.mpr (Ne.symm h)
    have h3 : List.find? (fun a : String × FsFile => a.1 == q) [(p, f)] = none := by
      simp [List.find?, hr]
    rw [h2, h3]
    simp [h]

/-- The per-iteration step never removes the `backup_files` rows already
present: it appends one row when the destination existed and none
otherwise. -/
theorem processFile_backups_some (hashFn : List ℕ → String) (st : ServerState)
    (fi : SyncFileInfo) (incoming : List ℕ) (t : ℚ) (existing : FsFile)
    (h : fsLookup st.fs fi.path = some existing) :
    (processFile hashFn st fi incoming t).1.backups =
      st.backups ++
        [{ original_path := fi.path,
           backup_path := "backups/" ++ backup_filename fi.path t,
           size := (existing.content.length : ℤ),
           modified_time := existing.mtime,
           backup_time := t,
           hash := some (hashFn existing.content) }] := by
  by_cases hm : hashFn incoming = fi.hash <;>
    simp [processFile, h, hm, backup_file]

theorem processFile_backups_none (hashFn : List ℕ → String) (st : ServerState)
    (fi : SyncFileInfo) (incoming : List ℕ) (t : ℚ)
    (h : fsLookup st.fs fi.path = none) :
    (processFile hashFn st fi incoming t).1.backups = st.backups := by
  by_cases hm : hashFn incoming = fi.hash <;>
    simp [processFile, h, hm]

/-- After the iteration the destination holds the incoming bytes; the mtime
is the announced one exactly when the hash matched (`os.utime`, server.py
336), and the write time otherwise. -/
theorem processFile_fs_self (hashFn : List ℕ → String) (st : ServerState)
    (fi : SyncFileInfo) (incoming : List ℕ) (t : ℚ) :
    fsLookup (processFile hashFn st fi incoming t).1.fs fi.path =
      some ⟨incoming, if hashFn incoming = fi.hash then fi.modified_time else t⟩ := by
  rcases hfs : fsLookup st.fs fi.path with _ | existing <;>
    by_cases hm : hashFn incoming = fi.hash <;>
      simp [processFile, hfs, hm, fsLookup_fsWrite]

/-- Which paths exist after the iteration: the written one and all the old
ones (the backup copy goes to the separate `backups/` area). -/
theorem processFile_fs_isSome (hashFn : List ℕ → String) (st : ServerState)
    (fi : SyncFileInfo) (incoming : List ℕ) (t : ℚ) (q : String) :
    (fsLookup (processFile hashFn st fi incoming t).1.fs q).isSome =
      (q == fi.path || (fsLookup st.fs q).isSome) := by
  by_cases hq : q = fi.path
  · subst hq
    simp [processFile_fs_self]
  · have hbq : (q == fi.path) = false := beq_eq_false_iff_ne.mpr hq
    rcases hfs : fsLookup st.fs fi.path with _ | existing <;>
      by_cases hm : hashFn incoming = fi.hash <;>
        simp [processFile, hfs, hm, fsLookup_fsWrite, hq, hbq]

/-! ### C1 — backup strictly precedes the overwrite -/

theorem blobLookup_blobWrite_self (d : List (String × List ℕ)) (name : String)
    (c : List ℕ) : blobLookup (blobWrite d name c) name = some c := by
  unfold blobLookup blobWrite
  rw [List.find?_append]
  have h1 : List.find? (fun e : String × List ℕ => e.1 == name)
      (d.filter (fun e => e.1 != name)) = none := by
    refine List.find?_eq_none.mpr fun x hx => ?_
    have := (List.mem_filter.mp hx).2
    simp [bne, beq_iff_eq] at this ⊢
    exact this
  rw [h1]
  simp [List.find?]

theorem processFile_backupDir_some (hashFn : List ℕ → String) (st : ServerState)
    (fi : SyncFileInfo) (incoming : List ℕ) (t : ℚ) (existing : FsFile)
    (h : fsLookup st.fs fi.path = some existing) :
    (processFile hashFn st fi incoming t).1.backupDir =
      blobWrite st.backupDir (backup_filename fi.path t) existing.content := by
  by_cases hm : hashFn incoming = fi.hash <;>
    simp [processFile, h, hm]

/-- C1.  For an incoming file whose destination already exists, the
iteration's trace copies the destination into the backup area and inserts
the BackupRecord strictly before the write of any incoming byte
(`writeDest`); the inserted record captures the pre-overwrite size, mtime
and hash, and the backup blob holds the pre-overwrite bytes.  Since
`handleFileSync` applies this iteration to every file of the exchange, no
destination is ever overwritten without the prior snapshot. -/
theorem C1_backup_before_overwrite (hashFn : List ℕ → String) (st : ServerState)
    (fi : SyncFileInfo) (incoming : List ℕ) (t : ℚ) (existing : FsFile)
    (hex : fsLookup st.fs fi.path = some existing) :
    (∃ post,
      (processFile hashFn st fi incoming t).2 =
        [Event.copyToBackup fi.path (backup_filename fi.path t),
         Event.insertBackupRecord fi.path,
         Event.sendReadyForFile] ++ Event.writeDest fi.path :: post) ∧
    (processFile hashFn st fi incoming t).1.backups =
      st.backups ++
        [{ original_path := fi.path,
           backup_path := "backups/" ++ backup_filename fi.path t,
           size := (existing.content.length : ℤ),
           modified_time := existing.mtime,
           backup_time := t,
           hash := some (hashFn existing.content) }] ∧
    blobLookup (processFile hashFn st fi incoming t).1.backupDir
      (backup_filename fi.path t) = some existing.content := by
  refine ⟨?_, processFile_backups_some hashFn st fi incoming t existing hex, ?_⟩
  · by_cases hm : hashFn incoming = fi.hash <;>
      simp [processFile, hex, hm]
  · rw [processFile_backupDir_some hashFn st fi incoming t existing hex,
      blobLookup_blobWrite_self]

/-- C1 witness: destination `"a.txt"` holding bytes `[7]` (mtime 50) is
backed up — blob and record — before the incoming write at time 100. -/
theorem C1_backup_before_overwrite_witness :
    (∃ post,
      (processFile (fun _ => "H")
        { fs := [("a.txt", { content := [7], mtime := 50 })], backupDir := [],
          files := [], backups := [], receivedFiles := 0 }
        { path := "a.txt", size := 1, modified_time := 60, hash := "H" }
        [1] 100).2 =
        [Event.copyToBackup "a.txt" (backup_filename "a.txt" 100),
         Event.insertBackupRecord "a.txt",
         Event.sendReadyForFile] ++ Event.writeDest "a.txt" :: post) ∧
    (processFile (fun _ => "H")
        { fs := [("a.txt", { content := [7], mtime := 50 })], backupDir := [],
          files := [], backups := [], receivedFiles := 0 }
        { path := "a.txt", size := 1, modified_time := 60, hash := "H" }
        [1] 100).1.backups =
      [] ++
        [{ original_path := "a.txt",
           backup_path := "backups/" ++ backup_filename "a.txt" 100,
           size := (1 : ℤ),
           modified_time := 50,
           backup_time := 100,
           hash := some "H" }] ∧
    blobLookup (processFile (fun _ => "H")
        { fs := [("a.txt", { content := [7], mtime := 50 })], backupDir := [],
          files := [], backups := [], receivedFiles := 0 }
        { path := "a.txt", size := 1, modified_time := 60, hash := "H" }
        [1] 100).1.backupDir (backup_filename "a.txt" 100) = some [7] :=
  C1_backup_before_overwrite (fun _ => "H")
    { fs := [("a.txt", { content := [7], mtime := 50 })], backupDir := [],
      files := [], backups := [], receivedFiles := 0 }
    { path := "a.txt", size := 1, modified_time := 60, hash := "H" }
    [1] 100 { content := [7], mtime := 50 } (by decide)

/-! ### C10 — hash mismatch leaves registry, mtime and counter untouched -/

/-- C10.  When the recomputed hash of the received bytes differs from the
announced one, the iteration leaves the `files` relation and the
`received_files` counter unchanged and does not apply the announced
modification time (the destination keeps the write-time mtime `t`), replying
`hash_mismatch` last; when the hashes agree, the row is upserted with the
announced size/mtime/hash (and `last_sync_time = t`), the counter is bumped
and the mtime is set to the announced one. -/
theorem C10_mismatch_frame (hashFn : List ℕ → String) (st : ServerState)
    (fi : SyncFileInfo) (incoming : List ℕ) (t : ℚ) :
    (hashFn incoming ≠ fi.hash →
      (processFile hashFn st fi incoming t).1.files = st.files ∧
      (processFile hashFn st fi incoming t).1.receivedFiles = st.receivedFiles ∧
      fsLookup (processFile hashFn st fi incoming t).1.fs fi.path =
        some { content := incoming, mtime := t } ∧
      (processFile hashFn st fi incoming t).2.getLast? =
        some Event.sendHashMismatch) ∧
    (hashFn incoming = fi.hash →
      (processFile hashFn st fi incoming t).1.files =
        insertOrReplace st.files
          { path := fi.path, size := fi.size, modified_time := fi.modified_time,
            hash := some fi.hash, last_sync_time := t } ∧
      (processFile hashFn st fi incoming t).1.receivedFiles =
        st.receivedFiles + 1 ∧
      fsLookup (processFile hashFn st fi incoming t).1.fs fi.path =
        some { content := incoming, mtime := fi.modified_time }) := by
  constructor
  · intro hm
    refine ⟨?_, ?_, ?_, ?_⟩
    · rcases hfs : fsLookup st.fs fi.path with _ | existing <;>
        simp [processFile, hfs, hm]
    · rcases hfs : fsLookup st.fs fi.path with _ | existing <;>
        simp [processFile, hfs, hm]
    · have := processFile_fs_self hashFn st fi incoming t
      rw [this, if_neg hm]
    · rcases hfs : fsLookup st.fs fi.path with _ | existing <;>
        simp [processFile, hfs, hm]
  · intro hm
    refine ⟨?_, ?_, ?_⟩
    · rcases hfs : fsLookup st.fs fi.path with _ | existing <;>
        simp [processFile, hfs, hm]
    · rcases hfs : fsLookup st.fs fi.path with _ | existing <;>
        simp [processFile, hfs, hm]
    · have := processFile_fs_self hashFn st fi incoming t
      rw [this, if_pos hm]

/-- C10 witness: received bytes hashing to `"X"` against announced `"H"`
leave registry, counter and mtime untouched; the matching transfer updates
all three. -/
theorem C10_mismatch_frame_witness :
    ((processFile (fun c => if c = [1] then "H" else "X")
        { fs := [], backupDir := [], files := [], backups := [],
          receivedFiles := 0 }
        { path := "a", size := 1, modified_time := 60, hash := "H" }
        [2] 100).1.files = [] ∧
      (processFile (fun c => if c = [1] then "H" else "X")
        { fs := [], backupDir := [], files := [], backups := [],
          receivedFiles := 0 }
        { path := "a", size := 1, modified_time := 60, hash := "H" }
        [2] 100).1.receivedFiles = 0 ∧
      fsLookup (processFile (fun c => if c = [1] then "H" else "X")
        { fs := [], backupDir := [], files := [], backups := [],
          receivedFiles := 0 }
        { path := "a", size := 1, modified_time := 60, hash := "H" }
        [2] 100).1.fs "a" = some { content := [2], mtime := 100 } ∧
      (processFile (fun c => if c = [1] then "H" else "X")
        { fs := [], backupDir := [], files := [], backups := [],
          receivedFiles := 0 }
        { path := "a", size := 1, modified_time := 60, hash := "H" }
        [2] 100).2.getLast? = some Event.sendHashMismatch) ∧
    ((processFile (fun c => if c = [1] then "H" else "X")
        { fs := [], backupDir := [], files := [], backups := [],
          receivedFiles := 0 }
        { path := "a", size := 1, modified_time := 60, hash := "H" }
        [1] 100).1.files =
        insertOrReplace []
          { path := "a", size := 1, modified_time := 60, hash := some "H",
            last_sync_time := 100 } ∧
      (processFile (fun c => if c = [1] then "H" else "X")
        { fs := [], backupDir := [], files := [], backups := [],
          receivedFiles := 0 }
        { path := "a", size := 1, modified_time := 60, hash := "H" }
        [1] 100).1.receivedFiles = 0 + 1 ∧
      fsLookup (processFile (fun c => if c = [1] then "H" else "X")
        { fs := [], backupDir := [], files := [], backups := [],
          receivedFiles := 0 }
        { path := "a", size := 1, modified_time := 60, hash := "H" }
        [1] 100).1.fs "a" = some { content := [1], mtime := 60 }) :=
  ⟨(C10_mismatch_frame (fun c => if c = [1] then "H" else "X")
      { fs := [], backupDir := [], files := [], backups := [],
        receivedFiles := 0 }
      { path := "a", size := 1, modified_time := 60, hash := "H" }
      [2] 100).1 (by decide),
   (C10_mismatch_frame (fun c => if c = [1] then "H" else "X")
      { fs := [], backupDir := [], files := [], backups := [],
        receivedFiles := 0 }
      { path := "a", size := 1, modified_time := 60, hash := "H" }
      [1] 100).2 (by decide)⟩

/-! ### C8 — the backup log is append-only; one row per overwrite event -/

theorem countOverwrites_congr (items : List (SyncFileInfo × List ℕ × ℚ)) :
    ∀ d1 d2 : String → Bool, (∀ q, d1 q = d2 q) →
      countOverwrites d1 items = countOverwrites d2 items := by
  induction items with
  | nil => intro d1 d2 _; rfl
  | cons item rest ih =>
    intro d1 d2 h
    obtain ⟨fi, bytes, t⟩ := item
    simp only [countOverwrites, h fi.path]
    congr 1
    exact ih _ _ fun q => by simp [h q]

/-- C8 (amended).  Every `file_sync` exchange only appends to the backup
log: exactly one new BackupRecord per overwrite event (per file whose
destination existed when it was processed), never updating or deleting
earlier rows; each appended row's blob name is the destination's file name
plus the integer part of the event time.  (That name is NOT collision
resistant across events inside one integer second — see the
counterexample.) -/
theorem C8_backup_log_append_only (hashFn : List ℕ → String) (st : ServerState)
    (items : List (SyncFileInfo × List ℕ × ℚ)) :
    ∃ newRecs,
      (handleFileSync hashFn st items).1.backups = st.backups ++ newRecs ∧
      newRecs.length =
        countOverwrites (fun q => (fsLookup st.fs q).isSome) items ∧
      ∀ r ∈ newRecs, ∃ fi bytes t, (fi, bytes, t) ∈ items ∧
        r.original_path = fi.path ∧
        r.backup_path = "backups/" ++ backup_filename fi.path t := by
  induction items generalizing st with
  | nil => exact ⟨[], by simp [handleFileSync, countOverwrites]⟩
  | cons item rest ih =>
    obtain ⟨fi, bytes, t⟩ := item
    obtain ⟨recs, h1, h2, h3⟩ := ih (processFile hashFn st fi bytes t).1
    have hcnt : countOverwrites
        (fun q => (fsLookup (processFile hashFn st fi bytes t).1.fs q).isSome)
        rest =
        countOverwrites (fun q => q == fi.path || (fsLookup st.fs q).isSome)
          rest :=
      countOverwrites_congr rest _ _
        (fun q => processFile_fs_isSome hashFn st fi bytes t q)
    have hunfold : (handleFileSync hashFn st ((fi, bytes, t) :: rest)).1.backups =
        (handleFileSync hashFn (processFile hashFn st fi bytes t).1 rest).1.backups := by
      simp [handleFileSync]
    rcases hfs : fsLookup st.fs fi.path with _ | existing
    · refine ⟨recs, ?_, ?_, ?_⟩
      · rw [hunfold, h1, processFile_backups_none hashFn st fi bytes t hfs]
      · rw [h2, hcnt]
        simp [countOverwrites, hfs]
      · intro r hr
        obtain ⟨fi', bytes', t', hmem, hrest⟩ := h3 r hr
        exact ⟨fi', bytes', t', List.mem_cons_of_mem _ hmem, hrest⟩
    · refine ⟨{ original_path := fi.path,
                backup_path := "backups/" ++ backup_filename fi.path t,
                size := (existing.content.length : ℤ),
                modified_time := existing.mtime,
                backup_time := t,
                hash := some (hashFn existing.content) } :: recs, ?_, ?_, ?_⟩
      · rw [hunfold, h1,
          processFile_backups_some hashFn st fi bytes t existing hfs]
        simp
      · rw [List.length_cons, h2, hcnt]
        simp [countOverwrites, hfs]
        omega
      · intro r hr
        rcases List.mem_cons.mp hr with h | h
        · exact ⟨fi, bytes, t, List.mem_cons_self _ _, by rw [h], by rw [h]⟩
        · obtain ⟨fi', bytes', t', hmem, hrest⟩ := h3 r h
          exact ⟨fi', bytes', t', List.mem_cons_of_mem _ hmem, hrest⟩

/-- C8 counterexample.  The claim says backup blob names are collision
resistant, so no two overwrite events of one path share a backup storage
path.  The name is `f"{name}_{int(time.time())}"` (server.py 298) —
second-granular.  Two overwrites of `"d/a.txt"` at times 100 and 100.5
(same integer second) append two BackupRecords whose `backup_path` is the
SAME `"backups/a.txt_100"`; the second blob copy overwrites the first. -/
theorem C8_counterexample :
    ((handleFileSync (fun _ => "H")
        { fs := [("d/a.txt", { content := [7], mtime := 50 })], backupDir := [],
          files := [], backups := [], receivedFiles := 0 }
        [({ path := "d/a.txt", size := 1, modified_time := 60, hash := "H" },
           [1], 100),
         ({ path := "d/a.txt", size := 1, modified_time := 60, hash := "H" },
           [2], 201/2)]).1.backups.map BackupRow.original_path =
      ["d/a.txt", "d/a.txt"]) ∧
    ((handleFileSync (fun _ => "H")
        { fs := [("d/a.txt", { content := [7], mtime := 50 })], backupDir := [],
          files := [], backups := [], receivedFiles := 0 }
        [({ path := "d/a.txt", size := 1, modified_time := 60, hash := "H" },
           [1], 100),
         ({ path := "d/a.txt", size := 1, modified_time := 60, hash := "H" },
           [2], 201/2)]).1.backups.map BackupRow.backup_path =
      ["backups/a.txt_100", "backups/a.txt_100"]) := by
  have hfs0 : fsLookup
      [("d/a.txt", ({ content := [7], mtime := 50 } : FsFile))] "d/a.txt" =
      some { content := [7], mtime := 50 } := by decide
  have hb1 := processFile_backups_some (fun _ => "H")
    { fs := [("d/a.txt", { content := [7], mtime := 50 })], backupDir := [],
      files := [], backups := [], receivedFiles := 0 }
    { path := "d/a.txt", size := 1, modified_time := 60, hash := "H" }
    [1] 100 { content := [7], mtime := 50 } hfs0
  have hfs1 := processFile_fs_self (fun _ => "H")
    { fs := [("d/a.txt", { content := [7], mtime := 50 })], backupDir := [],
      files := [], backups := [], receivedFiles := 0 }
    { path := "d/a.txt", size := 1, modified_time := 60, hash := "H" }
    [1] 100
  rw [if_pos rfl] at hfs1
  have hb2 := processFile_backups_some (fun _ => "H")
    (processFile (fun _ => "H")
      { fs := [("d/a.txt", { content := [7], mtime := 50 })], backupDir := [],
        files := [], backups := [], receivedFiles := 0 }
      { path := "d/a.txt", size := 1, modified_time := 60, hash := "H" }
      [1] 100).1
    { path := "d/a.txt", size := 1, modified_time := 60, hash := "H" }
    [2] (201/2) { content := [1], mtime := 60 } hfs1
  have hname1 : backup_filename "d/a.txt" 100 = "a.txt_100" := by
    have h : ⌊(100 : ℚ)⌋ = 100 := by norm_num
    unfold backup_filename
    rw [h]
    decide
  have hname2 : backup_filename "d/a.txt" (201/2) = "a.txt_100" := by
    have h : ⌊(201/2 : ℚ)⌋ = 100 := by norm_num
    unfold backup_filename
    rw [h]
    decide
  have hfinal : (handleFileSync (fun _ => "H")
      { fs := [("d/a.txt", { content := [7], mtime := 50 })], backupDir := [],
        files := [], backups := [], receivedFiles := 0 }
      [({ path := "d/a.txt", size := 1, modified_time := 60, hash := "H" },
         [1], 100),
       ({ path := "d/a.txt", size := 1, modified_time := 60, hash := "H" },
         [2], 201/2)]).1.backups =
      (processFile (fun _ => "H")
        (processFile (fun _ => "H")
          { fs := [("d/a.txt", { content := [7], mtime := 50 })], backupDir := [],
            files := [], backups := [], receivedFiles := 0 }
          { path := "d/a.txt", size := 1, modified_time := 60, hash := "H" }
          [1] 100).1
        { path := "d/a.txt", size := 1, modified_time := 60, hash := "H" }
        [2] (201/2)).1.backups := by
    simp [handleFileSync]
  rw [hfinal, hb2, hb1, hname1, hname2]
  simp

/-! ### restorer.py / database.py — the restore window query and selection -/

theorem latest_backups_eq_runMax :
    ∀ (bs : List BackupRow) (acc : String → Option BackupRow) (p : String),
      bs.foldl latestStep acc p =
        runMax (acc p) (bs.filter (fun b => b.original_path == p)) := by
  intro bs
  induction bs with
  | nil => intro acc p; rfl
  | cons b rest ih =>
    intro acc p
    rw [List.foldl_cons, ih, List.filter_cons]
    by_cases hb : b.original_path = p
    · have hstep : latestStep acc b p = runMaxStep (acc p) b := by
        unfold latestStep runMaxStep
        rw [if_pos hb.symm, hb]
      rw [if_pos (by simp [hb]), hstep]
      rfl
    · have hstep : latestStep acc b p = acc p := by
        unfold latestStep
        rw [if_neg (fun hh : p = b.original_path => hb hh.symm)]
      rw [if_neg (by simp [hb]), hstep]

theorem runMax_spec :
    ∀ (l : List BackupRow) (cur : Option BackupRow),
      (∀ r, runMax cur l = some r →
        (cur = some r ∨ r ∈ l) ∧
        (∀ b ∈ l, b.backup_time ≤ r.backup_time) ∧
        (∀ c, cur = some c → c.backup_time ≤ r.backup_time)) ∧
      (runMax cur l = none → cur = none ∧ l = []) := by
  intro l
  induction l with
  | nil =>
    intro cur
    constructor
    · intro r hr
      have hr' : cur = some r := hr
      refine ⟨Or.inl hr', by simp, ?_⟩
      intro c hc
      rw [hc] at hr'
      cases hr'
      exact le_refl _
    · intro h
      exact ⟨h, rfl⟩
  | cons b rest ih =>
    intro cur
    have hcomb : ∃ x, runMaxStep cur b = some x ∧
        b.backup_time ≤ x.backup_time ∧
        (∀ c, cur = some c → c.backup_time ≤ x.backup_time) ∧
        (x = b ∨ cur = some x) := by
      rcases cur with _ | c
      · refine ⟨b, rfl, le_refl _, ?_, Or.inl rfl⟩
        intro c hc
        exact nomatch hc
      · by_cases hgt : b.backup_time > c.backup_time
        · refine ⟨b, by simp [runMaxStep, hgt], le_refl _, ?_, Or.inl rfl⟩
          intro c' hc'
          cases hc'
          exact le_of_lt hgt
        · refine ⟨c, by simp [runMaxStep, hgt], le_of_not_lt hgt, ?_, Or.inr rfl⟩
          intro c' hc'
          cases hc'
          exact le_refl _
    obtain ⟨x, hx, hbx, hcx, hxor⟩ := hcomb
    have hrun : runMax cur (b :: rest) = runMax (some x) rest := by
      rw [show runMax cur (b :: rest) = runMax (runMaxStep cur b) rest from rfl, hx]
    constructor
    · intro r hr
      rw [hrun] at hr
      obtain ⟨hmem, hmax, hcur⟩ := (ih (some x)).1 r hr
      have hxr : x.backup_time ≤ r.backup_time := hcur x rfl
      refine ⟨?_, ?_, ?_⟩
      · rcases hmem with h | h
        · cases h
          rcases hxor with h | h
          · exact Or.inr (h ▸ List.mem_cons_self _ _)
          · exact Or.inl h
        · exact Or.inr (List.mem_cons_of_mem _ h)
      · intro b' hb'
        rcases List.mem_cons.mp hb' with h | h
        · exact h ▸ le_trans hbx hxr
        · exact hmax b' h
      · intro c hc
        exact le_trans (hcx c hc) hxr
    · intro h
      rw [hrun] at h
      obtain ⟨hcontra, _⟩ := (ih (some x)).2 h
      cases hcontra

/-! ### C4 — restore picks the latest backup inside the window -/

/-- C4.  If a path has at least one BackupRecord with `backup_time` in the
closed interval `[s, e]`, the restore selection yields for it a record of
the log that carries the path, lies inside the window, and has the maximum
`backup_time` among the path's in-window records — records outside the
window are never chosen, however late. -/
theorem C4_restore_selects_latest_in_window (db : List BackupRow) (s e : ℚ)
    (p : String)
    (hex : ∃ b ∈ db, b.original_path = p ∧ s ≤ b.backup_time ∧
      b.backup_time ≤ e) :
    ∃ r, restore_selection db s e p = some r ∧ r ∈ db ∧ r.original_path = p ∧
      s ≤ r.backup_time ∧ r.backup_time ≤ e ∧
      ∀ b ∈ db, b.original_path = p → s ≤ b.backup_time → b.backup_time ≤ e →
        b.backup_time ≤ r.backup_time := by
  obtain ⟨b0, hb0mem, hb0p, hb0s, hb0e⟩ := hex
  have hmemLp : ∀ b : BackupRow,
      (b ∈ (get_backup_files_by_time_range db s e).filter
        (fun b => b.original_path == p)) ↔
      (b ∈ db ∧ b.original_path = p ∧ s ≤ b.backup_time ∧ b.backup_time ≤ e) := by
    intro b
    simp only [get_backup_files_by_time_range, List.mem_filter,
      List.mem_mergeSort, Bool.and_eq_true, decide_eq_true_eq, beq_iff_eq]
    tauto
  have hsel : restore_selection db s e p =
      runMax none ((get_backup_files_by_time_range db s e).filter
        (fun b => b.original_path == p)) := by
    unfold restore_selection latest_backups
    exact latest_backups_eq_runMax _ _ p
  rcases hr : restore_selection db s e p with _ | r
  · rw [hsel] at hr
    obtain ⟨-, hnil⟩ := (runMax_spec _ none).2 hr
    have : b0 ∈ (get_backup_files_by_time_range db s e).filter
        (fun b => b.original_path == p) :=
      (hmemLp b0).mpr ⟨hb0mem, hb0p, hb0s, hb0e⟩
    rw [hnil] at this
    cases this
  · rw [hsel] at hr
    obtain ⟨hmem, hmax, -⟩ := (runMax_spec _ none).1 r hr
    have hrin : r ∈ (get_backup_files_by_time_range db s e).filter
        (fun b => b.original_path == p) := by
      rcases hmem with h | h
      · cases h
      · exact h
    obtain ⟨hrdb, hrp, hrs, hre⟩ := (hmemLp r).mp hrin
    refine ⟨r, rfl, hrdb, hrp, hrs, hre, ?_⟩
    intro b hb hbp hbs hbe
    exact hmax b ((hmemLp b).mpr ⟨hb, hbp, hbs, hbe⟩)

/-- C4 witness: the spec's tie-break example — backups of `"a"` at times 10,
20 and 30, window `[0, 25]`: the selection yields an in-window record of
maximal backup_time (the one at 20; the record at 30 is outside the
window). -/
theorem C4_restore_selects_latest_in_window_witness :
    ∃ r, restore_selection tieBreakLog 0 25 "a" = some r ∧ r ∈ tieBreakLog ∧
      r.original_path = "a" ∧ 0 ≤ r.backup_time ∧ r.backup_time ≤ 25 ∧
      ∀ b ∈ tieBreakLog, b.original_path = "a" → 0 ≤ b.backup_time →
        b.backup_time ≤ 25 → b.backup_time ≤ r.backup_time :=
  C4_restore_selects_latest_in_window tieBreakLog 0 25 "a"
    ⟨{ original_path := "a", backup_path := "b2", size := 1,
       modified_time := 5, backup_time := 20, hash := none },
     by decide, rfl, by decide, by decide⟩

/-! ### restorer.py — the restore loop (lines 60-98) -/

/-! ### C5 — individual restore failures -/

/-- C5 counterexample.  The claim says a directory-creation failure is
logged and skipped without aborting the batch.  It is not: `mkdir` stands
outside the try block (restorer.py 76), so its exception propagates out of
`restore_files_by_time_range` — with a first record whose `mkdir` fails and
a second, perfectly restorable record, the method raises (no count is
returned) and the second record is never processed. -/
theorem C5_counterexample :
    restore_files
      [({ original_path := "a", backup_path := "b1", size := 1,
          modified_time := 5, backup_time := 10, hash := none },
        { blobExists := true, mkdirOk := false, copyOk := true }),
       ({ original_path := "c", backup_path := "b2", size := 1,
          modified_time := 5, backup_time := 20, hash := none },
        { blobExists := true, mkdirOk := true, copyOk := true })] =
      Except.error "a" ∧
    ∀ n, restore_files
      [({ original_path := "a", backup_path := "b1", size := 1,
          modified_time := 5, backup_time := 10, hash := none },
        { blobExists := true, mkdirOk := false, copyOk := true }),
       ({ original_path := "c", backup_path := "b2", size := 1,
          modified_time := 5, backup_time := 20, hash := none },
        { blobExists := true, mkdirOk := true, copyOk := true })] ≠
      Except.ok n := by
  constructor
  · rfl
  · intro n h
    rw [show restore_files
      [({ original_path := "a", backup_path := "b1", size := 1,
          modified_time := 5, backup_time := 10, hash := none },
        { blobExists := true, mkdirOk := false, copyOk := true }),
       ({ original_path := "c", backup_path := "b2", size := 1,
          modified_time := 5, backup_time := 20, hash := none },
        { blobExists := true, mkdirOk := true, copyOk := true })] =
      Except.error "a" from rfl] at h
    cases h

/-- C5 (amended).  When no record hits a directory-creation failure, the
restore loop returns the count of successfully restored files, and the
per-item failures it does handle — a missing backup blob, or a failure
inside the try block (copy, utime, registry upsert) — are logged and
skipped without aborting the batch; a directory-creation failure, however,
raises and aborts the remaining records (see the counterexample). -/
theorem C5_restore_skips_item_failures
    (items : List (BackupRow × RestoreItemEnv))
    (h : ∀ x ∈ items, x.2.mkdirOk = true) :
    restore_files items =
      Except.ok ((items.filter
        (fun x => x.2.blobExists && x.2.copyOk)).length) := by
  suffices hgen : ∀ (l : List (BackupRow × RestoreItemEnv)) (n : ℕ),
      (∀ x ∈ l, x.2.mkdirOk = true) →
      restoreLoop l n =
        Except.ok (n + (l.filter (fun x => x.2.blobExists && x.2.copyOk)).length) by
    simpa [restore_files] using hgen items 0 h
  intro l
  induction l with
  | nil => intro n _; simp [restoreLoop]
  | cons x rest ih =>
    intro n hl
    obtain ⟨b, env⟩ := x
    have henv : env.mkdirOk = true := hl (b, env) (List.mem_cons_self _ _)
    have hrest : ∀ y ∈ rest, y.2.mkdirOk = true :=
      fun y hy => hl y (List.mem_cons_of_mem _ hy)
    rcases hblob : env.blobExists with _ | _
    · simp [restoreLoop, hblob, List.filter_cons, ih n hrest]
    · rcases hcopy : env.copyOk with _ | _
      · simp [restoreLoop, hblob, henv, hcopy, List.filter_cons, ih n hrest]
      · simp only [restoreLoop, hblob, henv, hcopy, List.filter_cons]
        simp only [Bool.true_eq_false, if_false, ih (n + 1) hrest]
        simp [Nat.add_comm, Nat.add_assoc, Nat.add_left_comm]

/-- C5 witness: with no mkdir failure, a batch holding a missing blob, a
copy failure and a success returns the success count without aborting. -/
theorem C5_restore_skips_item_failures_witness :
    restore_files mixedBatch =
      Except.ok ((mixedBatch.filter
        (fun x => x.2.blobExists && x.2.copyOk)).length) :=
  C5_restore_skips_item_failures mixedBatch (by decide)

/-- C6 witness: announcing 4 bytes, a first attempt delivering `[9, 9]`
fails keeping the partial bytes; the second attempt restarts from zero and
yields the first 4 bytes of its own stream. -/
theorem C6_download_restart_no_resume_witness :
    download_server_db 4 [9, 9] = (false, [9, 9]) ∧
    downloadWithRetry 4 [[9, 9], [1, 2, 3, 4, 5]] = some [1, 2, 3, 4] :=
  ⟨(C6_download_restart_no_resume 4 [9, 9] [1, 2, 3, 4, 5] [[9, 9]] []).1
      (by decide),
   (C6_download_restart_no_resume 4 [9, 9] [1, 2, 3, 4, 5] [[9, 9]] []).2.2
      (by decide) (by decide)⟩

